import Mathlib

/-!
# Verification of the audio-assistant voice pipeline

Shallow embedding of the core of the `audio-assistant` repository:
dialogue memory trimming (`internal/llm/service.go`), TTS text validation
(`internal/tts/qwen_client.go`), WAV container parsing
(`internal/audio/wav_parser.go`), linear resampling
(`internal/audio/resample.go`), the playback sink (`internal/audio`,
output module) and the tick-driven turn controller
(`cmd/voice_assistant/main.go`).

Modelling conventions:
* Go byte strings are `List Char` (content) with an explicit UTF-8 byte
  length where Go's `len` (a byte count) matters.
* Go slices of bytes are `List ℕ` (each entry one byte).
* `float32` sample arithmetic is modelled by exact rationals; where a
  claim hinges on IEEE-754 double rounding (the resampler's length
  computation) the rounding is modelled exactly by `flRound 53`.
* Stateful loops become step functions over explicit state records,
  one step per 50 ms tick of the controller's ticker.
-/

/-! ## Dialogue memory — internal/llm/service.go -/

/-- One dialogue entry (`llm.Message`). -/
structure Message where
  role : String
  content : String
deriving DecidableEq, Repr

/-- `Service.trimHistory` (internal/llm/service.go:279-308): when the history
exceeds `maxHistoryLength`, keep all system messages and only the most
recent `maxHistoryLength - #system` non-system messages. -/
def trimHistory (maxHistoryLength : ℕ) (hist : List Message) : List Message :=
  if hist.length ≤ maxHistoryLength then hist
  else
    let systemMessages := hist.filter (fun m => m.role == "system")
    let conversationMessages := hist.filter (fun m => !(m.role == "system"))
    let maxConversationMessages : ℤ :=
      (maxHistoryLength : ℤ) - systemMessages.length
    if 0 < maxConversationMessages ∧
        maxConversationMessages < (conversationMessages.length : ℤ) then
      systemMessages ++
        conversationMessages.drop
          (conversationMessages.length - maxConversationMessages.toNat)
    else
      systemMessages ++ conversationMessages

/-- One `append(role, text)` followed by `trim()` on the dialogue memory. -/
def appendAndTrim (maxHistoryLength : ℕ) (hist : List Message) (m : Message) :
    List Message :=
  trimHistory maxHistoryLength (hist ++ [m])

/-- A whole session: a sequence of appends, each followed by `trim()`. -/
def runDialogue (maxHistoryLength : ℕ) (init : List Message)
    (ops : List Message) : List Message :=
  ops.foldl (appendAndTrim maxHistoryLength) init

/-- The last `k` elements of a list. -/
def lastN (k : ℕ) (l : List α) : List α := l.drop (l.length - k)

/-! ## TTS text validation — internal/tts/qwen_client.go `SynthesizeText` -/

/-- Number of bytes of the UTF-8 encoding of one character. -/
def utf8CharBytes (c : Char) : ℕ :=
  if c.toNat < 0x80 then 1
  else if c.toNat < 0x800 then 2
  else if c.toNat < 0x10000 then 3
  else 4

/-- Go's `len(text)`: the UTF-8 byte length of a string. -/
def utf8Length (text : List Char) : ℕ :=
  (text.map utf8CharBytes).sum

/-- The validation prefix of `TTSClient.SynthesizeText`
(internal/tts/qwen_client.go:459-467): reject empty text, then reject
`len(text) > 4096` — Go's `len` counts bytes. -/
def synthesizeTextCheck (text : List Char) : Except String Unit :=
  if text = [] then .error "text cannot be empty"
  else if 4096 < utf8Length text then .error "text too long"
  else .ok ()

/-! ## WAV container parsing — internal/audio/wav_parser.go

Files are byte lists (`List ℕ`, one entry per byte, each < 256 in any
well-formed file). Reader positions are explicit indices.
-/

/-- Little-endian 16-bit value from two bytes. -/
def u16le (b0 b1 : ℕ) : ℕ := b0 % 256 + 256 * (b1 % 256)

/-- Little-endian 32-bit value from four bytes. -/
def u32le (b0 b1 b2 b3 : ℕ) : ℕ :=
  b0 % 256 + 256 * (b1 % 256) + 65536 * (b2 % 256) + 16777216 * (b3 % 256)

/-- The byte at an index of a byte list (out-of-range reads never occur
on the paths proved below; they default to 0). -/
def byteAt : List ℕ → ℕ → ℕ
  | [], _ => 0
  | b :: _, 0 => b
  | _ :: rest, n + 1 => byteAt rest n

/-- Two little-endian bytes read as a signed 16-bit integer
(`binary.Read` of an `int16`). -/
def int16le (b0 b1 : ℕ) : ℤ :=
  let v := u16le b0 b1
  if 32768 ≤ v then (v : ℤ) - 65536 else (v : ℤ)

/-- The `fmt ` chunk payload (`audio.FmtChunk`). -/
structure FmtChunk where
  audioFormat : ℕ
  numChannels : ℕ
  sampleRate : ℕ
  byteRate : ℕ
  blockAlign : ℕ
  bitsPerSample : ℕ
deriving DecidableEq, Repr

/-- `parseFmtChunk` (wav_parser.go:158-171): needs at least 16 bytes, then
reads the six little-endian fields. -/
def parseFmtChunk (data : List ℕ) : Except String FmtChunk :=
  if data.length < 16 then .error "fmt chunk too small"
  else .ok {
    audioFormat := u16le (byteAt data 0) (byteAt data 1)
    numChannels := u16le (byteAt data 2) (byteAt data 3)
    sampleRate := u32le (byteAt data 4) (byteAt data 5) (byteAt data 6) (byteAt data 7)
    byteRate := u32le (byteAt data 8) (byteAt data 9) (byteAt data 10) (byteAt data 11)
    blockAlign := u16le (byteAt data 12) (byteAt data 13)
    bitsPerSample := u16le (byteAt data 14) (byteAt data 15) }

/-- Result of the chunk-walking loop of `parseWAVContent`. -/
inductive WalkResult where
  | fin (fmtChunk : Option FmtChunk) (dataOffset : ℕ) (dataSize : ℕ)
  | err (msg : String)
deriving DecidableEq, Repr

/-- The chunk ID bytes of `"fmt "`. -/
def fmtID : List ℕ := [0x66, 0x6d, 0x74, 0x20]

/-- The chunk ID bytes of `"data"`. -/
def dataID : List ℕ := [0x64, 0x61, 0x74, 0x61]

/-- The chunk-walking loop of `parseWAVContent` (wav_parser.go:77-117).
`binary.Read` of an 8-byte chunk header yields `io.EOF` (loop break) when
the reader is at or past the end, and an error when 1-7 bytes remain.
A `fmt ` chunk body is read in full (`io.ReadFull`, error if short) and
parsed; a `data` chunk records the current position and declared size and
seeks past the declared size (`bytes.Reader.Seek` past the end succeeds);
other chunks are skipped the same way. Fuel bounds the iteration count;
each iteration advances the position by at least 8, so fuel
`content.length + 1` is never exhausted. -/
def chunkWalk (content : List ℕ) :
    ℕ → ℕ → Option FmtChunk → ℕ → ℕ → WalkResult
  | 0, _, _, _, _ => .err "out of fuel"
  | fuel + 1, pos, fmtChunk, dataOffset, dataSize =>
    if content.length ≤ pos then .fin fmtChunk dataOffset dataSize
    else if content.length < pos + 8 then .err "failed to read chunk header"
    else
      let id := (content.drop pos).take 4
      let size := u32le (byteAt content (pos + 4)) (byteAt content (pos + 5))
        (byteAt content (pos + 6)) (byteAt content (pos + 7))
      if id = fmtID then
        if content.length < pos + 8 + size then .err "failed to read fmt chunk"
        else
          match parseFmtChunk ((content.drop (pos + 8)).take size) with
          | .error e => .err e
          | .ok f => chunkWalk content fuel (pos + 8 + size) (some f) dataOffset dataSize
      else if id = dataID then
        chunkWalk content fuel (pos + 8 + size) fmtChunk (pos + 8) size
      else
        chunkWalk content fuel (pos + 8 + size) fmtChunk dataOffset dataSize

/-- The effective data size used by `extractAudioData`
(wav_parser.go:176-181): the declared size is advisory — when
`dataOffset + dataSize` exceeds the file bounds the actual remaining
byte count is used instead (with a warning printed). -/
def effectiveDataSize (contentLength dataOffset dataSize : ℕ) : ℕ :=
  if contentLength < dataOffset + dataSize then contentLength - dataOffset
  else dataSize

/-- `extractAudioData` (wav_parser.go:174-215): clamp the declared data
size to the file bounds, compute `numSamples = dataSize / bytesPerSample`,
then decode each sample as a little-endian `int16` converted to float by
`float32(sample) / 32767.0` (no clamping). The `float32` arithmetic is
modelled by exact rationals. The `io.EOF` truncation branch of the Go
loop is unreachable: `2 * numSamples ≤ dataSize` bytes are always
available in the sliced data. -/
def extractAudioData (content : List ℕ) (dataOffset dataSize : ℕ)
    (fmtChunk : FmtChunk) : Except String (List ℚ × ℕ) :=
  let dSize := effectiveDataSize content.length dataOffset dataSize
  let bytesPerSample := fmtChunk.bitsPerSample / 8
  let numSamples := dSize / bytesPerSample
  if numSamples = 0 then .error "no audio samples found"
  else
    .ok ((List.range numSamples).map (fun i =>
      ((int16le (byteAt content (dataOffset + 2 * i))
          (byteAt content (dataOffset + 2 * i + 1)) : ℚ) / 32767)),
      fmtChunk.sampleRate)

/-- `parseWAVContent` (wav_parser.go:42-145): validate the RIFF/WAVE
header, walk the chunks, require a `fmt ` chunk and a `data` chunk, then
require PCM (format code 1) at 16 bits per sample, and extract the
samples. -/
def parseWAVContent (content : List ℕ) : Except String (List ℚ × ℕ) :=
  if content.length < 12 then .error "file too small to be a valid WAV file"
  else if content.take 4 ≠ [0x52, 0x49, 0x46, 0x46] then .error "not a RIFF file"
  else if (content.drop 8).take 4 ≠ [0x57, 0x41, 0x56, 0x45] then .error "not a WAVE file"
  else
    match chunkWalk content (content.length + 1) 12 none 0 0 with
    | .err e => .error e
    | .fin none _ _ => .error "fmt chunk not found"
    | .fin (some fmtChunk) dataOffset dataSize =>
      if dataOffset = 0 then .error "data chunk not found"
      else if fmtChunk.audioFormat ≠ 1 then .error "unsupported audio format"
      else if fmtChunk.bitsPerSample ≠ 16 then .error "unsupported bits per sample"
      else extractAudioData content dataOffset dataSize fmtChunk

/-- A RIFF/WAVE file with the standard 44-byte layout, written byte by
byte: `"RIFF"`, the declared RIFF size `riffSize` (little-endian),
`"WAVE"`, a `"fmt "` chunk of declared size 16 carrying PCM (format
code 1), mono, sample rate `sr`, byte rate `br`, block align `ba` and
16 bits per sample, then a `"data"` chunk whose declared size `d` may
disagree with the actual payload, and the payload itself at offset 44. -/
def mkPCM16MonoWav (riffSize d sr br ba : ℕ) (payload : List ℕ) : List ℕ :=
  0x52 :: 0x49 :: 0x46 :: 0x46 ::
  riffSize % 256 :: riffSize / 256 % 256 :: riffSize / 65536 % 256 ::
    riffSize / 16777216 % 256 ::
  0x57 :: 0x41 :: 0x56 :: 0x45 ::
  0x66 :: 0x6d :: 0x74 :: 0x20 ::
  16 :: 0 :: 0 :: 0 ::
  1 :: 0 :: 1 :: 0 ::
  sr % 256 :: sr / 256 % 256 :: sr / 65536 % 256 :: sr / 16777216 % 256 ::
  br % 256 :: br / 256 % 256 :: br / 65536 % 256 :: br / 16777216 % 256 ::
  ba % 256 :: ba / 256 % 256 ::
  16 :: 0 ::
  0x64 :: 0x61 :: 0x74 :: 0x61 ::
  d % 256 :: d / 256 % 256 :: d / 65536 % 256 :: d / 16777216 % 256 ::
  payload

/-! ## Exact model of IEEE-754 binary64 rounding

The resampler computes its output length in `float64` arithmetic
(`ratio := float64(inputRate) / float64(outputRate)`,
`outputLength := int(float64(len) / ratio)`). Go `float64` arithmetic is
IEEE-754 with round-to-nearest-ties-to-even; every individual division is
correctly rounded (normal range; the values arising here are far
from overflow and underflow).

A positive float is represented as a dyadic pair `(m, e) : ℕ × ℤ`
denoting `m * 2 ^ e`; rounding a fraction `a / b` works on the integer
pair `(a, b)` so every step is kernel-computable `ℕ` arithmetic. The
operands arising here are within the 53-bit exact-integer range, so
`float64` conversions of the integer inputs are exact.
-/

/-- Scale `A / B` up by powers of two until it reaches `lo`
(fuel-bounded; the triple denotes the value `(A / B) * 2 ^ e`). -/
def normUpN (lo : ℕ) : ℕ → ℕ → ℕ → ℤ → ℕ × ℕ × ℤ
  | 0, A, B, e => (A, B, e)
  | fuel + 1, A, B, e =>
    if A < lo * B then normUpN lo fuel (2 * A) B (e - 1) else (A, B, e)

/-- Scale `A / B` down by powers of two until it drops below `hi`
(fuel-bounded; the triple denotes the value `(A / B) * 2 ^ e`). -/
def normDownN (hi : ℕ) : ℕ → ℕ → ℕ → ℤ → ℕ × ℕ × ℤ
  | 0, A, B, e => (A, B, e)
  | fuel + 1, A, B, e =>
    if hi * B ≤ A then normDownN hi fuel A (2 * B) (e + 1) else (A, B, e)

/-- Round the fraction `A / B` to the nearest integer, ties to even. -/
def roundHalfEvenN (A B : ℕ) : ℕ :=
  let m := A / B
  let r := A % B
  if 2 * r < B then m
  else if B < 2 * r then m + 1
  else if m % 2 = 0 then m else m + 1

/-- IEEE round-to-nearest-even of `a / b` (`a, b > 0`) at `prec`
significand bits, as a dyadic pair `(m, e)` denoting `m * 2 ^ e`;
`flDyadic 53` models a correctly rounded `float64` division. -/
def flDyadic (prec : ℕ) (a b : ℕ) : ℕ × ℤ :=
  let p1 := normUpN (2 ^ (prec - 1)) 4500 a b 0
  let p2 := normDownN (2 ^ prec) 4500 p1.1 p1.2.1 p1.2.2
  (roundHalfEvenN p2.1 p2.2.1, p2.2.2)

/-- Correctly rounded `float64` division of an exact integer `L` by a
dyadic float `(m, e)`. -/
def dyadicDiv (prec : ℕ) (L : ℕ) (me : ℕ × ℤ) : ℕ × ℤ :=
  if 0 ≤ me.2 then flDyadic prec L (me.1 * 2 ^ me.2.toNat)
  else flDyadic prec (L * 2 ^ (-me.2).toNat) me.1

/-- Correctly rounded `float64` product of an exact integer `i` and a
dyadic float `(m, e)`. -/
def dyadicMul (prec : ℕ) (i : ℕ) (me : ℕ × ℤ) : ℕ × ℤ :=
  let p := flDyadic prec (i * me.1) 1
  (p.1, p.2 + me.2)

/-- Go's `int(x)` conversion (truncation toward zero) of a nonnegative
dyadic float. -/
def truncDyadic (me : ℕ × ℤ) : ℕ :=
  if 0 ≤ me.2 then me.1 * 2 ^ me.2.toNat else me.1 / 2 ^ (-me.2).toNat

/-- `2 ^ e` as a rational, for an integer exponent. -/
def qpow2 (e : ℤ) : ℚ :=
  if 0 ≤ e then ((2 ^ e.toNat : ℕ) : ℚ) else (((2 ^ (-e).toNat : ℕ) : ℚ))⁻¹

/-- The exact rational value of a dyadic float. -/
def dyadicToQ (me : ℕ × ℤ) : ℚ := (me.1 : ℚ) * qpow2 me.2

/-! ## Linear resampling — internal/audio/resample.go `Resample`

(`part_009`'s `ResampleAudio` computes the identical arithmetic; it only
orders the same-rate and empty-input early returns differently, which
yields the same results.)
-/

/-- The output length the Go code computes:
`ratio := float64(inputRate) / float64(outputRate)` and
`outputLength := int(float64(inputLength) / ratio)` — both divisions in
`float64`, the final `int` conversion truncating toward zero. -/
def goResampleLength (inputLength inputRate outputRate : ℕ) : ℕ :=
  truncDyadic (dyadicDiv 53 inputLength (flDyadic 53 inputRate outputRate))

/-- `Resample` (internal/audio/resample.go:8-57). Sample values are
modelled by exact rationals (their rounding is irrelevant to the stated
properties); the length and index computations follow the `float64`
semantics via the dyadic model. `int` conversions truncate toward zero,
which on the nonnegative values here is the floor. -/
def Resample (inputSamples : List ℚ) (inputSampleRate outputSampleRate : ℤ) :
    Except String (List ℚ) :=
  if inputSampleRate ≤ 0 ∨ outputSampleRate ≤ 0 then
    .error "invalid sample rates"
  else if inputSamples.length = 0 then .ok []
  else if inputSampleRate = outputSampleRate then .ok inputSamples
  else
    let r12 := flDyadic 53 inputSampleRate.toNat outputSampleRate.toNat
    let outputLength := goResampleLength inputSamples.length
      inputSampleRate.toNat outputSampleRate.toNat
    if outputLength = 0 then .ok []
    else
      .ok ((List.range outputLength).map (fun i =>
        let sourcePos := dyadicMul 53 i r12
        let sourceIndex := truncDyadic sourcePos
        if inputSamples.length - 1 ≤ sourceIndex then
          inputSamples.getD (inputSamples.length - 1) 0
        else
          let fraction := dyadicToQ sourcePos - sourceIndex
          let sample1 := inputSamples.getD sourceIndex 0
          let sample2 := inputSamples.getD (sourceIndex + 1) 0
          sample1 + fraction * (sample2 - sample1)))

/-- The length of a resampler result (`[]` on the error path, which never
carries samples). -/
def resultLength (r : Except String (List ℚ)) : ℕ :=
  (r.toOption.getD []).length

/-! ## Playback sink — internal/audio output module (`AudioOutput`) -/

/-- The mutable fields of `audio.AudioOutput` that `PlaySamples` and the
device callback exchange (stream handle elided; `streamStarted` records
whether `stream.Start()` has been called by the current play). -/
structure AudioOutputState where
  samples : List ℚ
  position : ℕ
  finished : Bool
  interrupted : Bool
  streamStarted : Bool
deriving DecidableEq, Repr

/-- One invocation of `audioCallback` asked for `frameLen` output
samples: emit from the cursor, or zeros when interrupted or drained,
setting `finished` accordingly. -/
def audioCallback (s : AudioOutputState) (frameLen : ℕ) :
    AudioOutputState × List ℚ :=
  if s.interrupted then
    ({ s with finished := true }, List.replicate frameLen 0)
  else
    let emitted := min frameLen (s.samples.length - s.position)
    ({ s with
        position := s.position + emitted
        finished := s.finished || decide (emitted < frameLen) },
      (s.samples.drop s.position).take emitted ++
        List.replicate (frameLen - emitted) 0)

/-- The entry of `PlaySamples` (part_010:95-109): reject an empty sample
list before touching any playback state; otherwise install the samples,
reset the cursor and flags, and start the stream. The returned state is
the receiver's state at the moment `PlaySamples` returns or starts its
waiting loop. -/
def playSamplesEnter (s : AudioOutputState) (samples : List ℚ) :
    AudioOutputState × Except String Unit :=
  if samples.length = 0 then (s, .error "no audio samples to play")
  else
    ({ samples := samples, position := 0, finished := false,
       interrupted := false, streamStarted := true }, .ok ())

/-- One observable event of the waiting loop in `PlaySamples`
(part_010:114-132): either the context's done channel fires, or the
10 ms ticker fires and the loop reads the `finished`/`interrupted`
snapshot under the lock. -/
inductive PlayEvent where
  | ctxDone
  | tick (finishedSnapshot : Bool)
deriving DecidableEq, Repr

/-- What a finished `PlaySamples` call returned. -/
inductive PlayReturn where
  | cancelled
  | ok
deriving DecidableEq, Repr

/-- The waiting loop of `PlaySamples`: `for { select { ... } }`. On
`ctx.Done()` it stops the sink and returns `ctx.Err()`. On a tick it
computes `finished := ao.finished || ao.interrupted` and executes
`if finished { break }` — in Go this `break` terminates the `select`
statement, not the `for` loop, so the loop continues regardless of the
snapshot; `none` means the loop is still running after consuming the
given events. -/
def playWaitLoop : List PlayEvent → Option PlayReturn
  | [] => none
  | .ctxDone :: _ => some .cancelled
  | .tick _ :: rest => playWaitLoop rest

/-! ## Turn controller tick loop — cmd/voice_assistant/main.go

The `processingLoop` ticks every 50 ms; each tick reads one frame and
dispatches on the current state. Ticks are numbered 0, 1, 2, …, so the
wall-clock time elapsed between ticks `j` and `k` is `(k - j) * 50` ms.
Frames are identified by their tick number. Detector results are
`Option Bool`: `none` models a detector error (`err != nil`).
-/

/-- Controller states (`internal/state`, part_004). -/
inductive Phase where
  | idle
  | listening
  | processing
  | speaking
deriving DecidableEq, Repr

/-- Configuration fields of `main.Config` used by the tick loop, with the
defaults of `getDefaultConfig`. -/
structure TickConfig where
  minSilenceDurationMs : ℕ := 1000
  maxRecordingDurationSec : ℕ := 30
  allowInterrupt : Bool := true
  interruptMinDurationMs : ℕ := 200
deriving DecidableEq, Repr

/-- The recording-related state of the tick loop while in
Idle/Listening: `isListening`, `recordingStart`, the frame buffer
(frames tagged by tick number) and `silenceStart`
(`none` models the zero `time.Time`). -/
structure ListenState where
  isListening : Bool
  recordingStart : ℕ
  buffer : List ℕ
  silenceStart : Option ℕ
deriving DecidableEq, Repr

/-- The initial recording state of `processingLoop`. -/
def initialListen : ListenState :=
  { isListening := false, recordingStart := 0, buffer := [], silenceStart := none }

/-- `resetRecording` (main.go:609-615). -/
def resetRecording : ListenState :=
  { isListening := false, recordingStart := 0, buffer := [], silenceStart := none }

/-- One tick of the `StateIdle`/`StateListening` branch of
`processingLoop` (main.go:239-280) at tick `k` with detector result
`det`. Returns the new state and, when `processRecording` is invoked
(transition to Processing), the buffer it is invoked on. A detector
error (`det = none`) logs and `continue`s, leaving the state unchanged. -/
def listenStep (cfg : TickConfig) (k : ℕ) (det : Option Bool)
    (s : ListenState) : ListenState × Option (List ℕ) :=
  match det with
  | none => (s, none)
  | some true =>
    let s :=
      if !s.isListening then
        { isListening := true, recordingStart := k, buffer := [],
          silenceStart := none }
      else s
    let s := { s with buffer := s.buffer ++ [k], silenceStart := none }
    if cfg.maxRecordingDurationSec * 1000 < (k - s.recordingStart) * 50 then
      (resetRecording, some s.buffer)
    else (s, none)
  | some false =>
    if s.isListening then
      let s :=
        if s.silenceStart = none then { s with silenceStart := some k } else s
      let s := { s with buffer := s.buffer ++ [k] }
      match s.silenceStart with
      | some t =>
        if cfg.minSilenceDurationMs < (k - t) * 50 then
          (resetRecording, some s.buffer)
        else (s, none)
      | none => (s, none)
    else (s, none)

/-- The recording state after ticks `0, …, m - 1`, fed by the detector
result stream `f`. -/
def listenStateAt (cfg : TickConfig) (f : ℕ → Option Bool) : ℕ → ListenState
  | 0 => initialListen
  | m + 1 => (listenStep cfg m (f m) (listenStateAt cfg f m)).1

/-- The buffer handed to `processRecording` at tick `m`, if the
controller transitions to Processing on that tick. -/
def recordingEmittedAt (cfg : TickConfig) (f : ℕ → Option Bool) (m : ℕ) :
    Option (List ℕ) :=
  (listenStep cfg m (f m) (listenStateAt cfg f m)).2

/-- The barge-in probation state of the tick loop while Speaking:
`isDetectingInterrupt` and `interruptDetectionStart`
(main.go:46-47; the zero `time.Time` is modelled by tick 0, which is
only read when `isDetectingInterrupt` is set). -/
structure InterruptState where
  isDetectingInterrupt : Bool
  interruptDetectionStart : ℕ
deriving DecidableEq, Repr

/-- The initial barge-in state. -/
def initialInterrupt : InterruptState :=
  { isDetectingInterrupt := false, interruptDetectionStart := 0 }

/-- One tick of the `StateSpeaking` branch of `processingLoop`
(main.go:282-307) at tick `k` with barge-in detector result `det`.
The Go condition is `err == nil && hasInterrupt`; a detector error or a
non-qualifying frame takes the `else` branch, which cancels a running
probation. On confirmation, `handleInterrupt` (main.go:618-638) resets
the probation fields; the returned flag records that a barge-in was
confirmed on this tick. -/
def interruptStep (cfg : TickConfig) (k : ℕ) (det : Option Bool)
    (s : InterruptState) : InterruptState × Bool :=
  if cfg.allowInterrupt then
    match det with
    | some true =>
      let s :=
        if !s.isDetectingInterrupt then
          { isDetectingInterrupt := true, interruptDetectionStart := k }
        else s
      if cfg.interruptMinDurationMs < (k - s.interruptDetectionStart) * 50 then
        ({ isDetectingInterrupt := false, interruptDetectionStart := 0 }, true)
      else (s, false)
    | _ => ({ s with isDetectingInterrupt := false }, false)
  else (s, false)

/-- The barge-in state after ticks `0, …, m - 1` of a Speaking phase,
fed by the barge-in detector stream `f`. -/
def interruptStateAt (cfg : TickConfig) (f : ℕ → Option Bool) :
    ℕ → InterruptState
  | 0 => initialInterrupt
  | m + 1 => (interruptStep cfg m (f m) (interruptStateAt cfg f m)).1

/-- Whether a barge-in is confirmed on tick `m`. -/
def interruptConfirmedAt (cfg : TickConfig) (f : ℕ → Option Bool) (m : ℕ) :
    Bool :=
  (interruptStep cfg m (f m) (interruptStateAt cfg f m)).2

/-! ## The Processing pipeline — `processRecording` (main.go:413-476)

The goroutine body is sequential; it is modelled as a pure function of
the upstream call results. Adapter results are `Except String α`
(`.error` = the Go call returned a non-nil error). The state trace lists
every `stateManager.SetState` call in order.
-/

/-- Outcome of one `processRecording` run: the dialogue history
afterwards, the `SetState` trace, and the error message passed to
`playErrorMessage`, if any. -/
structure ProcOutcome where
  history : List Message
  trace : List Phase
  apology : Option String
deriving DecidableEq, Repr

/-- `performTTS` (main.go:551-599) sets Speaking on entry and Idle on
exit (deferred); its synthesis/playback internals are irrelevant to the
claims settled here. -/
def performTTSTrace : List Phase := [.speaking, .idle]

/-- `performLLM` (main.go:502-548): append the user message, call the
LLM, append the assistant reply, and cap the history at 20 messages by
dropping the two oldest. On an LLM error the user message stays
appended and the error propagates. -/
def performLLM (hist : List Message) (userText : String)
    (llmResult : Except String String) :
    List Message × Except String String :=
  let hist := hist ++ [{ role := "user", content := userText }]
  match llmResult with
  | .error e => (hist, .error e)
  | .ok response =>
    let hist := hist ++ [{ role := "assistant", content := response }]
    let hist := if 20 < hist.length then hist.drop 2 else hist
    (hist, .ok response)

/-- `processRecording` (main.go:413-476) as a function of the upstream
results: set Processing, bail out on an empty buffer, run ASR → LLM →
TTS in order, and on each failure play the corresponding apology via
`playErrorMessage` (which runs `performTTS`, passing through Speaking).
The deferred `SetState(StateIdle)` always ends the trace. -/
def processRecording (hist : List Message) (bufferEmpty : Bool)
    (asrResult : Except String String) (llmResult : Except String String)
    (ttsResult : Except String Unit) : ProcOutcome :=
  if bufferEmpty then
    { history := hist, trace := [.processing, .idle], apology := none }
  else
    match asrResult with
    | .error _ =>
      { history := hist
        trace := [.processing] ++ performTTSTrace ++ [.idle]
        apology := some "抱歉，语音识别失败了" }
    | .ok text =>
      if text = "" then
        { history := hist, trace := [.processing, .idle], apology := none }
      else
        match performLLM hist text llmResult with
        | (hist, .error _) =>
          { history := hist
            trace := [.processing] ++ performTTSTrace ++ [.idle]
            apology := some "抱歉，我现在无法处理您的请求" }
        | (hist, .ok _) =>
          match ttsResult with
          | .error _ =>
            { history := hist
              trace := [.processing] ++ performTTSTrace ++ performTTSTrace ++ [.idle]
              apology := some "抱歉，语音合成失败了" }
          | .ok _ =>
            { history := hist
              trace := [.processing] ++ performTTSTrace ++ [.idle]
              apology := none }

/-! # Theorems -/

/-! ## C10 — empty `PlaySamples` input -/

/-- C10: `PlaySamples` called with an empty sample list returns the
error "no audio samples to play" while leaving the playback state
exactly as it was — in particular the output stream is not started — so
the sink never begins a play of zero samples. -/
theorem C10_playSamples_empty_rejected (s : AudioOutputState) :
    playSamplesEnter s [] = (s, .error "no audio samples to play") ∧
      (playSamplesEnter s []).1.streamStarted = s.streamStarted := by
  constructor <;> simp [playSamplesEnter]

/-! ## C4 — the `PlaySamples` waiting loop never exits on `finished` -/

/-- C4 (code bug): the waiting loop of `PlaySamples` returns if and only
if the context is cancelled. The `break` on a `finished` snapshot only
terminates the `select` statement, so ticks reporting
`finished = true` never end the loop: with the finished flag set and the
context never cancelled the call does not return `nil` — it does not
return at all, contradicting the claim (and the code's own
`return nil` after the loop, which is unreachable). -/
theorem C4_playWaitLoop_returns_only_on_cancel (evs : List PlayEvent) :
    playWaitLoop evs =
      if PlayEvent.ctxDone ∈ evs then some PlayReturn.cancelled else none := by
  induction evs with
  | nil => simp [playWaitLoop]
  | cons e rest ih =>
    cases e with
    | ctxDone => simp [playWaitLoop]
    | tick b =>
      rw [playWaitLoop, ih]
      simp

/-! ## C9 — transcriber failure leaves memory unchanged -/

/-- C9: when the transcriber fails during Processing, `processRecording`
plays the fixed apology "抱歉，语音识别失败了" (passing through Speaking
via `performTTS`), ends in Idle, and leaves the dialogue memory
unchanged: no user entry is appended for the failed turn. -/
theorem C9_asr_failure_apology (hist : List Message) (e : String)
    (llmResult : Except String String) (ttsResult : Except String Unit) :
    (processRecording hist false (.error e) llmResult ttsResult).history =
        hist ∧
      (processRecording hist false (.error e) llmResult ttsResult).apology =
        some "抱歉，语音识别失败了" ∧
      Phase.speaking ∈
        (processRecording hist false (.error e) llmResult ttsResult).trace ∧
      (processRecording hist false (.error e) llmResult ttsResult).trace.getLast? =
        some Phase.idle := by
  refine ⟨rfl, rfl, ?_, rfl⟩
  simp [processRecording, performTTSTrace]

/-! ## C6 — synthesize text-length validation -/

/-- Every character contributes at least one UTF-8 byte. -/
lemma one_le_utf8CharBytes (c : Char) : 1 ≤ utf8CharBytes c := by
  unfold utf8CharBytes
  split_ifs <;> omega

/-- A string has at least as many UTF-8 bytes as characters. -/
lemma length_le_utf8Length (text : List Char) :
    text.length ≤ utf8Length text := by
  induction text with
  | nil => simp [utf8Length]
  | cons c rest ih =>
    have := one_le_utf8CharBytes c
    simp only [utf8Length, List.map_cons, List.sum_cons, List.length_cons]
    have : rest.length ≤ utf8Length rest := ih
    simp only [utf8Length] at this
    omega

/-- The UTF-8 byte length of `n` copies of one character. -/
lemma utf8Length_replicate (n : ℕ) (c : Char) :
    utf8Length (List.replicate n c) = n * utf8CharBytes c := by
  simp [utf8Length, List.map_replicate, List.sum_replicate, smul_eq_mul]

/-- C6 (counterexample): a text of 1366 characters `'你'` — 1366 ≤ 4096
characters — is rejected with a length error, because its UTF-8 encoding
is 4098 bytes and the Go check `len(text) > 4096` counts bytes, refuting
"for every text of length at most 4096 characters no length error is
produced". -/
theorem C6_counterexample_byte_length :
    synthesizeTextCheck (List.replicate 1366 '你') = .error "text too long" ∧
      (List.replicate 1366 '你').length ≤ 4096 ∧
      utf8Length (List.replicate 1366 '你') = 4098 := by
  have hbytes : utf8CharBytes '你' = 3 := by decide
  have hlen : utf8Length (List.replicate 1366 '你') = 4098 := by
    rw [utf8Length_replicate, hbytes]
  refine ⟨?_, by rw [List.length_replicate]; omega, hlen⟩
  unfold synthesizeTextCheck
  rw [if_neg (by simp), hlen]
  norm_num

/-- C6 (amended): `SynthesizeText` rejects empty text and accepts a text
iff it is non-empty and its UTF-8 **byte** length is at most 4096 — the
precondition is measured in bytes, not characters. Since every character
is at least one byte, any text of more than 4096 characters is still
rejected, but a text of at most 4096 characters may also be rejected
when its encoding exceeds 4096 bytes. -/
theorem C6_amended_length_check_in_bytes (text : List Char) :
    (synthesizeTextCheck text = .ok () ↔
      text ≠ [] ∧ utf8Length text ≤ 4096) ∧
      text.length ≤ utf8Length text := by
  constructor
  · unfold synthesizeTextCheck
    split_ifs with h1 h2 <;> simp_all
  · exact length_le_utf8Length text

/-- C6 (witness): the amended theorem at the concrete text `"Hi"`. -/
theorem C6_amended_witness :
    (synthesizeTextCheck ['H', 'i'] = .ok () ↔
      ['H', 'i'] ≠ [] ∧ utf8Length ['H', 'i'] ≤ 4096) ∧
      ['H', 'i'].length ≤ utf8Length ['H', 'i'] :=
  C6_amended_length_check_in_bytes ['H', 'i']

/-! ## C5 — max-recording-duration cutoff -/

/-- A voiced tick while not yet listening starts the recording with the
current frame (the elapsed-duration check reads 0 and cannot fire). -/
lemma listenStep_voiced_idle (cfg : TickConfig) (k : ℕ) :
    listenStep cfg k (some true) initialListen =
      ({ isListening := true, recordingStart := k, buffer := [k],
         silenceStart := none }, none) := by
  simp [listenStep, initialListen]

/-- A voiced tick while listening appends the frame; when the elapsed
duration does not strictly exceed the limit, recording continues. -/
lemma listenStep_voiced_continue (cfg : TickConfig) (k start : ℕ)
    (buf : List ℕ) (sil : Option ℕ)
    (hcond : ¬ cfg.maxRecordingDurationSec * 1000 < (k - start) * 50) :
    listenStep cfg k (some true)
        { isListening := true, recordingStart := start, buffer := buf,
          silenceStart := sil } =
      ({ isListening := true, recordingStart := start, buffer := buf ++ [k],
         silenceStart := none }, none) := by
  simp [listenStep, hcond]

/-- A voiced tick while listening force-stops the recording when the
elapsed duration strictly exceeds the limit, handing the appended buffer
to `processRecording`. -/
lemma listenStep_voiced_stop (cfg : TickConfig) (k start : ℕ)
    (buf : List ℕ) (sil : Option ℕ)
    (hcond : cfg.maxRecordingDurationSec * 1000 < (k - start) * 50) :
    listenStep cfg k (some true)
        { isListening := true, recordingStart := start, buffer := buf,
          silenceStart := sil } =
      (resetRecording, some (buf ++ [k])) := by
  simp [listenStep, hcond]

/-- With continuous voiced audio from tick 0 and the default
configuration, the controller is listening with buffer `0, …, m - 1`
after any `1 ≤ m ≤ 601` ticks (the strict check
`30000 ms < elapsed` has not fired yet). -/
lemma listenStateAt_allVoice (m : ℕ) (h1 : 1 ≤ m) (hm : m ≤ 601) :
    listenStateAt {} (fun _ => some true) m =
      { isListening := true, recordingStart := 0,
        buffer := List.range m, silenceStart := none } := by
  induction m with
  | zero => omega
  | succ m ih =>
    rcases Nat.eq_zero_or_pos m with h0 | hpos
    · subst h0
      rw [listenStateAt, listenStateAt]
      rw [listenStep_voiced_idle]
      rfl
    · rw [listenStateAt, ih hpos (by omega)]
      rw [listenStep_voiced_continue _ _ _ _ _ (by
        show ¬ (30 * 1000 < (m - 0) * 50)
        omega)]
      simp [List.range_succ]

/-- With continuous voiced audio, no transition to Processing happens on
any tick `m ≤ 600` — in particular not at t = 30 s (tick 600), where the
elapsed duration equals but does not strictly exceed
`MaxRecordingDuration`. -/
lemma recordingEmittedAt_allVoice_none (m : ℕ) (hm : m ≤ 600) :
    recordingEmittedAt {} (fun _ => some true) m = none := by
  unfold recordingEmittedAt
  rcases Nat.eq_zero_or_pos m with h0 | hpos
  · subst h0
    rw [show listenStateAt {} (fun _ => some true) 0 = initialListen from rfl]
    rw [listenStep_voiced_idle]
  · rw [listenStateAt_allVoice m hpos (by omega)]
    rw [listenStep_voiced_continue _ _ _ _ _ (by
      show ¬ (30 * 1000 < (m - 0) * 50)
      omega)]

/-- With continuous voiced audio, the force stop fires on tick 601
(t = 30.05 s), handing `processRecording` the 602 frames read on ticks
0, …, 601 — 30.1 s of audio at 50 ms per frame. -/
lemma recordingEmittedAt_allVoice_601 :
    recordingEmittedAt {} (fun _ => some true) 601 =
      some (List.range 602) := by
  unfold recordingEmittedAt
  rw [listenStateAt_allVoice 601 (by omega) (by omega)]
  rw [listenStep_voiced_stop _ _ _ _ _ (by
    show 30 * 1000 < (601 - 0) * 50
    omega)]
  rw [← List.range_succ]

/-- C5 (counterexample): with continuous voiced audio starting at t = 0,
nothing happens at t = 30 s — tick 600 does not transition to Processing
(the check `time.Since(recordingStart) > MaxRecordingDuration` is
strict) — and when the force stop does fire, on tick 601, transcription
receives 602 frames (30.1 s), not the 600 frames that make up exactly
30 s of 50 ms samples. -/
theorem C5_counterexample_timing :
    recordingEmittedAt {} (fun _ => some true) 600 = none ∧
      (recordingEmittedAt {} (fun _ => some true) 601).map List.length =
        some 602 ∧
      (602 : ℕ) ≠ 600 := by
  refine ⟨recordingEmittedAt_allVoice_none 600 (by omega), ?_, by omega⟩
  rw [recordingEmittedAt_allVoice_601]
  simp

/-- C5 (amended): whenever the controller is recording and the total
recording duration strictly exceeds `MaxRecordingDuration` (30 s),
recording force-stops and the controller transitions to Processing; for
continuous voiced audio with no silence gap this happens on the first
tick strictly after 30 s — tick 601, t = 30.05 s — and transcription is
invoked on all 602 frames read up to that tick (about 30.1 s of
samples), slightly more than 30 s. -/
theorem C5_amended_cutoff_after_30s (m : ℕ) (hm : m ≤ 600) :
    recordingEmittedAt {} (fun _ => some true) m = none ∧
      recordingEmittedAt {} (fun _ => some true) 601 =
        some (List.range 602) := by
  exact ⟨recordingEmittedAt_allVoice_none m hm,
    recordingEmittedAt_allVoice_601⟩

/-- C5 (witness): the amended theorem at tick 600. -/
theorem C5_amended_witness :
    recordingEmittedAt {} (fun _ => some true) 600 = none ∧
      recordingEmittedAt {} (fun _ => some true) 601 =
        some (List.range 602) :=
  C5_amended_cutoff_after_30s 600 (by omega)

/-! ## C1 — dialogue-memory trimming -/

/-- `lastN` keeps at most `k` elements. -/
lemma lastN_length_le (k : ℕ) (l : List α) : (lastN k l).length ≤ k := by
  simp only [lastN, List.length_drop]
  omega

/-- `lastN` of a list no longer than `k` is the whole list. -/
lemma lastN_of_le {k : ℕ} {l : List α} (h : l.length ≤ k) : lastN k l = l := by
  unfold lastN
  rw [show l.length - k = 0 from by omega, List.drop_zero]

/-- Elements of `lastN` come from the original list. -/
lemma mem_of_mem_lastN {k : ℕ} {l : List α} {a : α} (h : a ∈ lastN k l) :
    a ∈ l :=
  List.mem_of_mem_drop h

/-- Dropping a prefix before taking the last `k` elements changes
nothing once the tail alone has at least `k` elements. -/
lemma lastN_append_left (k : ℕ) (pre c : List α) (h : k ≤ c.length) :
    lastN k (pre ++ c) = lastN k c := by
  unfold lastN
  rw [List.length_append,
    show pre.length + c.length - k = pre.length + (c.length - k) from by omega,
    List.drop_append]

/-- Taking the last `k` of a list whose head part was already cut to its
last `k` elements equals taking the last `k` of the original. -/
lemma lastN_lastN_append (k : ℕ) (a b : List α) :
    lastN k (lastN k a ++ b) = lastN k (a ++ b) := by
  rcases le_or_lt a.length k with hle | hlt
  · rw [lastN_of_le hle]
  · have hlen : k ≤ (lastN k a ++ b).length := by
      simp only [List.length_append, lastN, List.length_drop]
      omega
    have h1 := lastN_append_left k (a.take (a.length - k)) (lastN k a ++ b) hlen
    have hsplit : a.take (a.length - k) ++ (lastN k a ++ b) = a ++ b := by
      rw [← List.append_assoc,
        show a.take (a.length - k) ++ lastN k a = a from
          List.take_append_drop _ a]
    rw [hsplit] at h1
    exact h1.symm

/-- Filtering the system messages out of a history of the form
`init ++ t` with `init` all-system and `t` system-free yields `init`. -/
lemma filter_system_of_split (init t : List Message)
    (hinit : ∀ x ∈ init, x.role = "system")
    (ht : ∀ x ∈ t, x.role ≠ "system") :
    (init ++ t).filter (fun m => m.role == "system") = init := by
  rw [List.filter_append]
  have h1 : init.filter (fun m => m.role == "system") = init :=
    List.filter_eq_self.mpr (fun a ha => by
      simp only [beq_iff_eq]
      exact hinit a ha)
  have h2 : t.filter (fun m => m.role == "system") = [] :=
    List.filter_eq_nil_iff.mpr (fun a ha => by
      simp only [beq_iff_eq]
      exact ht a ha)
  rw [h1, h2, List.append_nil]

/-- Filtering the non-system messages out of `init ++ t` with `init`
all-system and `t` system-free yields `t`. -/
lemma filter_nonsystem_of_split (init t : List Message)
    (hinit : ∀ x ∈ init, x.role = "system")
    (ht : ∀ x ∈ t, x.role ≠ "system") :
    (init ++ t).filter (fun m => !(m.role == "system")) = t := by
  rw [List.filter_append]
  have h1 : init.filter (fun m => !(m.role == "system")) = [] :=
    List.filter_eq_nil_iff.mpr (fun a ha => by
      simp [hinit a ha])
  have h2 : t.filter (fun m => !(m.role == "system")) = t :=
    List.filter_eq_self.mpr (fun a ha => by
      simp [ht a ha])
  rw [h1, h2, List.nil_append]

/-- One `append` + `trim` on a memory of the form `init ++ t` (leading
system block, then at most `N - #system` non-system messages) keeps the
system block and the last `N - #system` elements of `t ++ [m]`. -/
lemma appendAndTrim_split (N : ℕ) (init t : List Message) (m : Message)
    (hinit : ∀ x ∈ init, x.role = "system")
    (ht : ∀ x ∈ t, x.role ≠ "system") (hm : m.role ≠ "system")
    (hN : init.length < N) :
    appendAndTrim N (init ++ t) m =
      init ++ lastN (N - init.length) (t ++ [m]) := by
  unfold appendAndTrim trimHistory
  have htm : ∀ x ∈ t ++ [m], x.role ≠ "system" := by
    intro x hx
    rcases List.mem_append.mp hx with h | h
    · exact ht x h
    · rcases List.mem_singleton.mp h with rfl
      exact hm
  rw [List.append_assoc]
  have hlen : (init ++ (t ++ [m])).length = init.length + (t.length + 1) := by
    simp [List.length_append]
  rcases le_or_lt (init ++ (t ++ [m])).length N with hle | hgt
  · rw [if_pos hle]
    rw [lastN_of_le (by
      rw [hlen] at hle
      simp only [List.length_append, List.length_singleton]
      omega)]
  · rw [if_neg (by omega)]
    rw [filter_system_of_split init (t ++ [m]) hinit htm]
    rw [filter_nonsystem_of_split init (t ++ [m]) hinit htm]
    rw [hlen] at hgt
    rw [if_pos (by
      refine ⟨by omega, ?_⟩
      have : (t ++ [m]).length = t.length + 1 := by
        simp [List.length_append]
      rw [this]
      omega)]
    have htoNat : ((N : ℤ) - init.length).toNat = N - init.length := by omega
    rw [htoNat]
    rfl

/-- Running any system-free op sequence with `append` + `trim` from a
memory `init ++ t` in normal form stays in normal form: the final memory
is the system block followed by the last `N - #system` of `t ++ ops`. -/
lemma runDialogue_split (N : ℕ) (init : List Message)
    (hinit : ∀ x ∈ init, x.role = "system") (hN : init.length < N)
    (ops : List Message) :
    ∀ t : List Message, (∀ x ∈ t, x.role ≠ "system") →
      (∀ x ∈ ops, x.role ≠ "system") →
      t.length ≤ N - init.length →
      ops.foldl (appendAndTrim N) (init ++ t) =
        init ++ lastN (N - init.length) (t ++ ops) := by
  induction ops with
  | nil =>
    intro t ht _ hlen
    simp only [List.foldl_nil, List.append_nil]
    rw [lastN_of_le hlen]
  | cons m rest ih =>
    intro t ht hops hlen
    have hm : m.role ≠ "system" := hops m (List.mem_cons_self m rest)
    have hrest : ∀ x ∈ rest, x.role ≠ "system" := fun x hx =>
      hops x (List.mem_cons_of_mem m hx)
    rw [List.foldl_cons, appendAndTrim_split N init t m hinit ht hm hN]
    rw [ih (lastN (N - init.length) (t ++ [m]))
      (fun x hx => by
        have hx' := mem_of_mem_lastN hx
        rcases List.mem_append.mp hx' with h | h
        · exact ht x h
        · rcases List.mem_singleton.mp h with rfl
          exact hm)
      hrest (lastN_length_le _ _)]
    rw [lastN_lastN_append]
    rw [List.append_assoc]
    rfl

/-- C1 (counterexample): with `MaxHistoryLength = 10`, one system
message and five `append(user)` / `append(assistant)` pairs each
followed by `trim()`, the surviving non-system messages start with the
assistant message `a1` — not with a user message: `trimHistory` never
drops a leading assistant message, refuting the pair-preservation
clause. -/
theorem C1_counterexample_pair_preservation :
    ((runDialogue 10 [{ role := "system", content := "prompt" }]
        [{ role := "user", content := "u1" }, { role := "assistant", content := "a1" },
         { role := "user", content := "u2" }, { role := "assistant", content := "a2" },
         { role := "user", content := "u3" }, { role := "assistant", content := "a3" },
         { role := "user", content := "u4" }, { role := "assistant", content := "a4" },
         { role := "user", content := "u5" }, { role := "assistant", content := "a5" }]).filter
      (fun m => !(m.role == "system"))).head?.map Message.role =
        some "assistant" ∧ "assistant" ≠ "user" := by
  constructor
  · decide
  · decide

/-- C1 (amended): after any sequence of non-system `append`s each
followed by `trim()` starting from an all-system memory `init` with
`#init < N`, the memory is exactly `init` (all system messages kept)
followed by the most recent `N - #init` appended messages — a contiguous
suffix of the full appended history. The suffix does not necessarily
begin with a user message: no leading assistant message is dropped. -/
theorem C1_amended_trim_keeps_suffix (N : ℕ) (init ops : List Message)
    (hinit : ∀ x ∈ init, x.role = "system")
    (hops : ∀ x ∈ ops, x.role ≠ "system") (hN : init.length < N) :
    runDialogue N init ops = init ++ lastN (N - init.length) ops := by
  unfold runDialogue
  have := runDialogue_split N init hinit hN ops [] (by simp) hops (by simp)
  simpa using this

/-- C1 (witness): the amended theorem on one user/assistant pair after a
system prompt, with `N = 10`. -/
theorem C1_amended_witness :
    runDialogue 10 [Message.mk "system" "s"]
        [Message.mk "user" "u", Message.mk "assistant" "a"] =
      [Message.mk "system" "s"] ++
        lastN 9 [Message.mk "user" "u", Message.mk "assistant" "a"] :=
  C1_amended_trim_keeps_suffix 10 _ _ (by decide) (by decide) (by decide)

/-! ## C8 — two-stage barge-in confirmation -/

/-- An error or non-qualifying frame cancels any running probation
without confirming. -/
lemma interruptStep_nonqualifying (cfg : TickConfig)
    (hAllow : cfg.allowInterrupt = true) (k : ℕ) (det : Option Bool)
    (hdet : det = none ∨ det = some false) (s : InterruptState) :
    interruptStep cfg k det s =
      ({ s with isDetectingInterrupt := false }, false) := by
  rcases hdet with h | h <;> subst h <;> simp [interruptStep, hAllow]

/-- A qualifying frame with no probation running starts one at the
current tick; the elapsed-duration check reads 0 and cannot confirm. -/
lemma interruptStep_start_probation (cfg : TickConfig)
    (hAllow : cfg.allowInterrupt = true) (k j : ℕ) :
    interruptStep cfg k (some true) ⟨false, j⟩ =
      (⟨true, k⟩, false) := by
  simp [interruptStep, hAllow]

/-- A qualifying frame during probation: confirm iff the elapsed
duration strictly exceeds `InterruptMinDurationMs`. -/
lemma interruptStep_in_probation (cfg : TickConfig)
    (hAllow : cfg.allowInterrupt = true) (k j : ℕ) :
    interruptStep cfg k (some true) ⟨true, j⟩ =
      if cfg.interruptMinDurationMs < (k - j) * 50 then (⟨false, 0⟩, true)
      else (⟨true, j⟩, false) := by
  by_cases hcf : cfg.interruptMinDurationMs < (k - j) * 50 <;>
    simp [interruptStep, hAllow, hcf]

/-- Invariant of the Speaking-branch probation state: whenever probation
is running after `m` ticks, it began on some tick
`interruptDetectionStart ≤ m` and every tick since then carried a
qualifying, error-free detection. -/
lemma interrupt_probation_invariant (cfg : TickConfig)
    (hAllow : cfg.allowInterrupt = true) (f : ℕ → Option Bool) (m : ℕ) :
    (interruptStateAt cfg f m).isDetectingInterrupt = true →
      (interruptStateAt cfg f m).interruptDetectionStart ≤ m ∧
        ∀ i, (interruptStateAt cfg f m).interruptDetectionStart ≤ i →
          i < m → f i = some true := by
  induction m with
  | zero =>
    intro h
    simp [interruptStateAt, initialInterrupt] at h
  | succ m ih =>
    intro h
    rw [interruptStateAt] at h ⊢
    rcases hS : interruptStateAt cfg f m with ⟨b, j⟩
    rw [hS] at h
    rw [hS] at ih
    match hfm : f m with
    | none =>
      rw [hfm, interruptStep_nonqualifying cfg hAllow m _ (Or.inl rfl)] at h
      simp at h
    | some false =>
      rw [hfm, interruptStep_nonqualifying cfg hAllow m _ (Or.inr rfl)] at h
      simp at h
    | some true =>
      rw [hfm] at h
      cases b with
      | false =>
        rw [interruptStep_start_probation cfg hAllow] at h ⊢
        refine ⟨by show m ≤ m + 1; omega, fun i hi him => ?_⟩
        have hi' : m ≤ i := hi
        have : i = m := by omega
        subst this
        exact hfm
      | true =>
        rcases ih rfl with ⟨hle, hall⟩
        have hle' : j ≤ m := hle
        rw [interruptStep_in_probation cfg hAllow] at h ⊢
        by_cases hcf : cfg.interruptMinDurationMs < (m - j) * 50
        · rw [if_pos hcf] at h
          simp at h
        · rw [if_neg hcf] at h ⊢
          refine ⟨by show j ≤ m + 1; omega, fun i hi him => ?_⟩
          have hi' : j ≤ i := hi
          rcases Nat.lt_or_ge i m with hlt | hge
          · exact hall i hi' hlt
          · have : i = m := by omega
            subst this
            exact hfm

/-- C8: during Speaking a barge-in is never confirmed without qualifying
detections persisting beyond `InterruptMinDurationMs`: if a barge-in is
confirmed on tick `k`, probation began on some earlier tick `j` with
`(k - j) · 50 ms > InterruptMinDurationMs`, and every tick in `[j, k]`
carried a qualifying, error-free detection — a single qualifying frame
only starts the probation timer, and any non-qualifying frame or
detector error during probation cancels it before confirmation. -/
theorem C8_bargein_needs_sustained_speech (cfg : TickConfig)
    (f : ℕ → Option Bool) (k : ℕ) (hAllow : cfg.allowInterrupt = true)
    (hconf : interruptConfirmedAt cfg f k = true) :
    ∃ j, j ≤ k ∧ cfg.interruptMinDurationMs < (k - j) * 50 ∧
      ∀ i, j ≤ i → i ≤ k → f i = some true := by
  unfold interruptConfirmedAt at hconf
  have hinv := interrupt_probation_invariant cfg hAllow f k
  rcases hS : interruptStateAt cfg f k with ⟨b, j⟩
  rw [hS] at hconf
  rw [hS] at hinv
  match hfk : f k with
  | none =>
    rw [hfk, interruptStep_nonqualifying cfg hAllow k _ (Or.inl rfl)] at hconf
    simp at hconf
  | some false =>
    rw [hfk, interruptStep_nonqualifying cfg hAllow k _ (Or.inr rfl)] at hconf
    simp at hconf
  | some true =>
    rw [hfk] at hconf
    cases b with
    | false =>
      rw [interruptStep_start_probation cfg hAllow] at hconf
      simp at hconf
    | true =>
      rcases hinv rfl with ⟨hle, hall⟩
      have hle' : j ≤ k := hle
      rw [interruptStep_in_probation cfg hAllow] at hconf
      by_cases hcf : cfg.interruptMinDurationMs < (k - j) * 50
      · refine ⟨j, hle', hcf, fun i hi hik => ?_⟩
        rcases Nat.lt_or_ge i k with hlt | hge
        · exact hall i hi hlt
        · have : i = k := by omega
          subst this
          exact hfk
      · rw [if_neg hcf] at hconf
        simp at hconf

/-- C8 (witness): six consecutive qualifying ticks confirm a barge-in on
tick 5 (250 ms > 200 ms), and the theorem yields the probation
interval. -/
theorem C8_witness :
    ({} : TickConfig).allowInterrupt = true ∧
      interruptConfirmedAt {} (fun _ => some true) 5 = true ∧
      ∃ j, j ≤ 5 ∧ ({} : TickConfig).interruptMinDurationMs < (5 - j) * 50 ∧
        ∀ i, j ≤ i → i ≤ 5 → (fun (_ : ℕ) => some true) i = some true :=
  ⟨rfl, by decide,
    C8_bargein_needs_sustained_speech {} (fun _ => some true) 5 rfl (by decide)⟩

/-! ## C3 — sample conversion range -/

/-- C3 (code bug): the robust WAV parser converts 16-bit samples by
`float32(sample) / 32767.0` with **no clamping** — its own comment says
"Convert to float32 in range [-1.0, 1.0]", and the spec says
`s / 32768.0` clamped to `[-1.0, 1.0]` — so the minimum 16-bit input
`-32768` (bytes `00 80`) decodes to `-32768/32767 ≈ -1.0000305`, strictly
below `-1.0`. -/
theorem C3_sample_below_minus_one :
    extractAudioData [0x00, 0x80] 0 2
        { audioFormat := 1, numChannels := 1, sampleRate := 16000,
          byteRate := 32000, blockAlign := 2, bitsPerSample := 16 } =
      .ok ([(-32768 : ℚ) / 32767], 16000) ∧
      (-32768 : ℚ) / 32767 < -1 := by
  constructor
  · show Except.ok
      ((List.range 1).map (fun i =>
        ((int16le (byteAt [(0x00 : ℕ), 0x80] (0 + 2 * i))
            (byteAt [(0x00 : ℕ), 0x80] (0 + 2 * i + 1)) : ℚ) / 32767)), 16000) =
      Except.ok ([(-32768 : ℚ) / 32767], 16000)
    have h1 : (List.range 1).map (fun i =>
        ((int16le (byteAt [(0x00 : ℕ), 0x80] (0 + 2 * i))
            (byteAt [(0x00 : ℕ), 0x80] (0 + 2 * i + 1)) : ℚ) / 32767)) =
        [((int16le 0x00 0x80 : ℚ) / 32767)] := rfl
    rw [h1]
    have h2 : int16le 0x00 0x80 = -32768 := by decide
    rw [h2]
    norm_num
  · norm_num

/-! ## C7 — resampler laws -/

/-- `normUpN` never changes a zero numerator. -/
lemma normUpN_fst_zero (lo : ℕ) (fuel : ℕ) :
    ∀ (B : ℕ) (e : ℤ), (normUpN lo fuel 0 B e).1 = 0 := by
  induction fuel with
  | zero => intro B e; rfl
  | succ fuel ih =>
    intro B e
    rw [normUpN]
    split_ifs with h
    · rw [show 2 * 0 = 0 from rfl]
      exact ih B (e - 1)
    · rfl

/-- `normDownN` never changes the numerator. -/
lemma normDownN_fst (hi : ℕ) (fuel : ℕ) :
    ∀ (A B : ℕ) (e : ℤ), (normDownN hi fuel A B e).1 = A := by
  induction fuel with
  | zero => intro A B e; rfl
  | succ fuel ih =>
    intro A B e
    rw [normDownN]
    split_ifs with h
    · exact ih A (2 * B) (e + 1)
    · rfl

/-- Rounding the fraction `0 / B` gives 0 for every `B`. -/
lemma roundHalfEvenN_zero (B : ℕ) : roundHalfEvenN 0 B = 0 := by
  unfold roundHalfEvenN
  simp only [Nat.zero_div, Nat.zero_mod]
  split_ifs <;> omega

/-- The rounded mantissa of `0 / b` is 0. -/
lemma flDyadic_fst_zero (prec b : ℕ) : (flDyadic prec 0 b).1 = 0 := by
  show roundHalfEvenN
      (normDownN (2 ^ prec) 4500 (normUpN (2 ^ (prec - 1)) 4500 0 b 0).1
        (normUpN (2 ^ (prec - 1)) 4500 0 b 0).2.1
        (normUpN (2 ^ (prec - 1)) 4500 0 b 0).2.2).1
      (normDownN (2 ^ prec) 4500 (normUpN (2 ^ (prec - 1)) 4500 0 b 0).1
        (normUpN (2 ^ (prec - 1)) 4500 0 b 0).2.1
        (normUpN (2 ^ (prec - 1)) 4500 0 b 0).2.2).2.1 = 0
  rw [normUpN_fst_zero]
  rw [normDownN_fst]
  exact roundHalfEvenN_zero _

/-- The `float64` computation of the output length maps an empty input
to length 0. -/
lemma goResampleLength_zero (a b : ℕ) : goResampleLength 0 a b = 0 := by
  unfold goResampleLength dyadicDiv truncDyadic
  split_ifs with h1 h2 h3
  · rw [flDyadic_fst_zero]
    exact Nat.zero_mul _
  · rw [flDyadic_fst_zero]
    exact Nat.zero_div _
  · rw [show (0 : ℕ) * 2 ^ (-(flDyadic 53 a b).2).toNat = 0 from Nat.zero_mul _,
      flDyadic_fst_zero]
    exact Nat.zero_mul _
  · rw [show (0 : ℕ) * 2 ^ (-(flDyadic 53 a b).2).toNat = 0 from Nat.zero_mul _,
      flDyadic_fst_zero]
    exact Nat.zero_div _

/-- Resampling between equal rates returns a copy of the input. -/
lemma Resample_same_rate (x : List ℚ) (r : ℤ) (hr : 0 < r) :
    Resample x r r = .ok x := by
  unfold Resample
  rw [if_neg (by omega)]
  by_cases hlen : x.length = 0
  · rw [if_pos hlen, List.length_eq_zero.mp hlen]
  · rw [if_neg hlen, if_pos rfl]

/-- The resampler's output length is exactly the `float64` computation
`int(float64(len) / (float64(r1) / float64(r2)))`. -/
lemma Resample_length (x : List ℚ) (r1 r2 : ℤ) (h1 : 0 < r1) (h2 : 0 < r2)
    (hne : r1 ≠ r2) :
    resultLength (Resample x r1 r2) =
      goResampleLength x.length r1.toNat r2.toNat := by
  unfold Resample resultLength
  rw [if_neg (by omega)]
  by_cases hlen : x.length = 0
  · rw [if_pos hlen, hlen, goResampleLength_zero]
    rfl
  · rw [if_neg hlen, if_neg hne]
    by_cases hz : goResampleLength x.length r1.toNat r2.toNat = 0
    · rw [if_pos hz, hz]
      rfl
    · rw [if_neg hz]
      simp [Except.toOption]

/-- C7 (counterexample): at input length 21 and rates 3 → 17 the code
returns 118 samples while `floor(len * r2 / r1) = floor(21 * 17 / 3) =
119`: the `float64` value of `3/17` rounds up, so `21 / (3/17)` computes
to `118.99999999999999` and the `int` conversion truncates it to 118,
refuting the claimed length law. -/
theorem C7_counterexample_length_law :
    resultLength (Resample (List.replicate 21 (0 : ℚ)) 3 17) = 118 ∧
      (List.replicate 21 (0 : ℚ)).length * 17 / 3 = 119 := by
  constructor
  · rw [Resample_length _ 3 17 (by omega) (by omega) (by omega)]
    decide
  · rw [List.length_replicate]

/-- C7 (amended): `resample(x, r, r)` returns a copy equal to `x` for
all positive `r`, and for `r1 ≠ r2` the output length is the `float64`
computation `int(float64(len(x)) / (float64(r1) / float64(r2)))`, which
agrees with `floor(len(x) * r2 / r1)` except when `float64` rounding
tips the quotient across an integer (as at `len = 21, r1 = 3, r2 = 17`,
where it returns 118 instead of 119). -/
theorem C7_amended_resample_laws :
    (∀ (x : List ℚ) (r : ℤ), 0 < r → Resample x r r = .ok x) ∧
      ∀ (x : List ℚ) (r1 r2 : ℤ), 0 < r1 → 0 < r2 → r1 ≠ r2 →
        resultLength (Resample x r1 r2) =
          goResampleLength x.length r1.toNat r2.toNat :=
  ⟨Resample_same_rate, fun x r1 r2 h1 h2 hne =>
    Resample_length x r1 r2 h1 h2 hne⟩

/-- C7 (witness): the amended theorem at a one-sample copy and at the
21-sample 3 → 17 instance. -/
theorem C7_amended_witness :
    Resample [(1 : ℚ) / 2] 5 5 = .ok [(1 : ℚ) / 2] ∧
      resultLength (Resample (List.replicate 21 (0 : ℚ)) 3 17) =
        goResampleLength 21 3 17 :=
  ⟨C7_amended_resample_laws.1 [(1 : ℚ) / 2] 5 (by omega),
    C7_amended_resample_laws.2 (List.replicate 21 (0 : ℚ)) 3 17
      (by omega) (by omega) (by omega)⟩

/-! ## C2 — advisory data-chunk size in the WAV parser -/

/-- The canonical broken-WAV layout is 44 header bytes plus the payload. -/
lemma mkWav_length (r d sr br ba : ℕ) (p : List ℕ) :
    (mkPCM16MonoWav r d sr br ba p).length = 44 + p.length := by
  simp [mkPCM16MonoWav]
  omega

/-- One unfolding of the chunk-walking loop. -/
lemma chunkWalk_succ (content : List ℕ) (fuel pos : ℕ)
    (fmtChunk : Option FmtChunk) (dataOffset dataSize : ℕ) :
    chunkWalk content (fuel + 1) pos fmtChunk dataOffset dataSize =
      if content.length ≤ pos then .fin fmtChunk dataOffset dataSize
      else if content.length < pos + 8 then .err "failed to read chunk header"
      else if (content.drop pos).take 4 = fmtID then
        if content.length < pos + 8 + u32le (byteAt content (pos + 4))
            (byteAt content (pos + 5)) (byteAt content (pos + 6))
            (byteAt content (pos + 7)) then
          .err "failed to read fmt chunk"
        else
          match parseFmtChunk ((content.drop (pos + 8)).take
              (u32le (byteAt content (pos + 4)) (byteAt content (pos + 5))
                (byteAt content (pos + 6)) (byteAt content (pos + 7)))) with
          | .error e => .err e
          | .ok f =>
            chunkWalk content fuel
              (pos + 8 + u32le (byteAt content (pos + 4))
                (byteAt content (pos + 5)) (byteAt content (pos + 6))
                (byteAt content (pos + 7))) (some f) dataOffset dataSize
      else if (content.drop pos).take 4 = dataID then
        chunkWalk content fuel
          (pos + 8 + u32le (byteAt content (pos + 4)) (byteAt content (pos + 5))
            (byteAt content (pos + 6)) (byteAt content (pos + 7)))
          fmtChunk (pos + 8)
          (u32le (byteAt content (pos + 4)) (byteAt content (pos + 5))
            (byteAt content (pos + 6)) (byteAt content (pos + 7)))
      else
        chunkWalk content fuel
          (pos + 8 + u32le (byteAt content (pos + 4)) (byteAt content (pos + 5))
            (byteAt content (pos + 6)) (byteAt content (pos + 7)))
          fmtChunk dataOffset dataSize := rfl

/-- Walk step: a well-formed `fmt ` chunk is parsed and the walk moves
past it. -/
lemma chunkWalk_step_fmt (content : List ℕ) (fuel pos : ℕ)
    (fmtChunk : Option FmtChunk) (dataOffset dataSize : ℕ) (f : FmtChunk)
    (h1 : ¬ content.length ≤ pos) (h2 : ¬ content.length < pos + 8)
    (hid : (content.drop pos).take 4 = fmtID)
    (hsz : ¬ content.length < pos + 8 + u32le (byteAt content (pos + 4))
        (byteAt content (pos + 5)) (byteAt content (pos + 6))
        (byteAt content (pos + 7)))
    (hp : parseFmtChunk ((content.drop (pos + 8)).take
        (u32le (byteAt content (pos + 4)) (byteAt content (pos + 5))
          (byteAt content (pos + 6)) (byteAt content (pos + 7)))) = .ok f) :
    chunkWalk content (fuel + 1) pos fmtChunk dataOffset dataSize =
      chunkWalk content fuel
        (pos + 8 + u32le (byteAt content (pos + 4)) (byteAt content (pos + 5))
          (byteAt content (pos + 6)) (byteAt content (pos + 7)))
        (some f) dataOffset dataSize := by
  rw [chunkWalk_succ, if_neg h1, if_neg h2, if_pos hid, if_neg hsz, hp]

/-- Walk step: a `data` chunk records its offset and declared size and
the walk seeks past the declared size. -/
lemma chunkWalk_step_data (content : List ℕ) (fuel pos : ℕ)
    (fmtChunk : Option FmtChunk) (dataOffset dataSize : ℕ)
    (h1 : ¬ content.length ≤ pos) (h2 : ¬ content.length < pos + 8)
    (hnf : ¬ (content.drop pos).take 4 = fmtID)
    (hid : (content.drop pos).take 4 = dataID) :
    chunkWalk content (fuel + 1) pos fmtChunk dataOffset dataSize =
      chunkWalk content fuel
        (pos + 8 + u32le (byteAt content (pos + 4)) (byteAt content (pos + 5))
          (byteAt content (pos + 6)) (byteAt content (pos + 7)))
        fmtChunk (pos + 8)
        (u32le (byteAt content (pos + 4)) (byteAt content (pos + 5))
          (byteAt content (pos + 6)) (byteAt content (pos + 7))) := by
  rw [chunkWalk_succ, if_neg h1, if_neg h2, if_neg hnf, if_pos hid]

/-- Walk step: a position at or past the end of the file is `io.EOF`,
which ends the walk. -/
lemma chunkWalk_step_eof (content : List ℕ) (fuel pos : ℕ)
    (fmtChunk : Option FmtChunk) (dataOffset dataSize : ℕ)
    (h : content.length ≤ pos) :
    chunkWalk content (fuel + 1) pos fmtChunk dataOffset dataSize =
      .fin fmtChunk dataOffset dataSize := by
  rw [chunkWalk_succ, if_pos h]

/-- Walking the canonical broken file finds the PCM-16 mono `fmt `
chunk and the `data` chunk at offset 44 with its declared size `d`, and
— because seeking `d` bytes from offset 44 lands past the end of file —
ends with `io.EOF` at the next header read. -/
lemma chunkWalk_mkWav (r d sr br ba : ℕ) (p : List ℕ)
    (hd : d < 4294967296) (hpd : p.length ≤ d) :
    chunkWalk (mkPCM16MonoWav r d sr br ba p)
        ((mkPCM16MonoWav r d sr br ba p).length + 1) 12 none 0 0 =
      .fin (some
        { audioFormat := 1, numChannels := 1,
          sampleRate := u32le (sr % 256) (sr / 256 % 256) (sr / 65536 % 256)
            (sr / 16777216 % 256),
          byteRate := u32le (br % 256) (br / 256 % 256) (br / 65536 % 256)
            (br / 16777216 % 256),
          blockAlign := u16le (ba % 256) (ba / 256 % 256),
          bitsPerSample := 16 }) 44 d := by
  have hlen : (mkPCM16MonoWav r d sr br ba p).length = 44 + p.length :=
    mkWav_length r d sr br ba p
  have hfmtid : ((mkPCM16MonoWav r d sr br ba p).drop 12).take 4 = fmtID := rfl
  have hdataid : ((mkPCM16MonoWav r d sr br ba p).drop 36).take 4 = dataID := rfl
  have hsz16 : u32le (byteAt (mkPCM16MonoWav r d sr br ba p) (12 + 4))
      (byteAt (mkPCM16MonoWav r d sr br ba p) (12 + 5))
      (byteAt (mkPCM16MonoWav r d sr br ba p) (12 + 6))
      (byteAt (mkPCM16MonoWav r d sr br ba p) (12 + 7)) = 16 := rfl
  have hparse : parseFmtChunk
      (((mkPCM16MonoWav r d sr br ba p).drop (12 + 8)).take 16) =
      .ok { audioFormat := 1, numChannels := 1,
            sampleRate := u32le (sr % 256) (sr / 256 % 256) (sr / 65536 % 256)
              (sr / 16777216 % 256),
            byteRate := u32le (br % 256) (br / 256 % 256) (br / 65536 % 256)
              (br / 16777216 % 256),
            blockAlign := u16le (ba % 256) (ba / 256 % 256),
            bitsPerSample := 16 } := rfl
  have hszd : u32le (byteAt (mkPCM16MonoWav r d sr br ba p) (36 + 4))
      (byteAt (mkPCM16MonoWav r d sr br ba p) (36 + 5))
      (byteAt (mkPCM16MonoWav r d sr br ba p) (36 + 6))
      (byteAt (mkPCM16MonoWav r d sr br ba p) (36 + 7)) = d := by
    show u32le (d % 256) (d / 256 % 256) (d / 65536 % 256)
      (d / 16777216 % 256) = d
    unfold u32le
    omega
  rw [chunkWalk_step_fmt _ _ _ _ _ _ _ (by omega) (by omega) hfmtid
    (by rw [hsz16]; omega) (by rw [hsz16]; exact hparse)]
  rw [hsz16]
  rw [show (12 + 8 + 16 : ℕ) = 36 from rfl]
  rw [hlen, show (44 + p.length : ℕ) = 43 + p.length + 1 from by omega]
  rw [chunkWalk_step_data _ _ _ _ _ _ (by omega) (by omega)
    (by rw [hdataid]; decide) hdataid]
  rw [hszd]
  rw [show (36 + 8 : ℕ) = 44 from rfl]
  rw [show (43 + p.length : ℕ) = 42 + p.length + 1 from by omega]
  rw [chunkWalk_step_eof _ _ _ _ _ _ (by omega)]

/-- Extracting samples from the canonical broken file: the declared size
`d` exceeds the 44-byte-offset payload, so the effective size is the
actual payload size and `payload.length / 2` samples are decoded. -/
lemma extractAudioData_mkWav (r d sr br ba : ℕ) (p : List ℕ)
    (hpd : p.length < d) (h2 : 2 ≤ p.length) :
    extractAudioData (mkPCM16MonoWav r d sr br ba p) 44 d
        { audioFormat := 1, numChannels := 1,
          sampleRate := u32le (sr % 256) (sr / 256 % 256) (sr / 65536 % 256)
            (sr / 16777216 % 256),
          byteRate := u32le (br % 256) (br / 256 % 256) (br / 65536 % 256)
            (br / 16777216 % 256),
          blockAlign := u16le (ba % 256) (ba / 256 % 256),
          bitsPerSample := 16 } =
      .ok ((List.range (p.length / 2)).map (fun i =>
          ((int16le (byteAt (mkPCM16MonoWav r d sr br ba p) (44 + 2 * i))
              (byteAt (mkPCM16MonoWav r d sr br ba p) (44 + 2 * i + 1)) : ℚ) /
            32767)),
        u32le (sr % 256) (sr / 256 % 256) (sr / 65536 % 256)
          (sr / 16777216 % 256)) := by
  have hlen : (mkPCM16MonoWav r d sr br ba p).length = 44 + p.length :=
    mkWav_length r d sr br ba p
  have heff : effectiveDataSize (mkPCM16MonoWav r d sr br ba p).length 44 d =
      p.length := by
    unfold effectiveDataSize
    rw [hlen, if_pos (by omega)]
    omega
  unfold extractAudioData
  rw [heff]
  rw [show FmtChunk.bitsPerSample
      { audioFormat := 1, numChannels := 1,
        sampleRate := u32le (sr % 256) (sr / 256 % 256) (sr / 65536 % 256)
          (sr / 16777216 % 256),
        byteRate := u32le (br % 256) (br / 256 % 256) (br / 65536 % 256)
          (br / 16777216 % 256),
        blockAlign := u16le (ba % 256) (ba / 256 % 256),
        bitsPerSample := 16 } = 16 from rfl]
  rw [show (16 / 8 : ℕ) = 2 from rfl]
  rw [if_neg (show ¬ (p.length / 2 = 0) from by omega)]

/-- Parsing the canonical broken file succeeds and decodes
`payload.length / 2` samples: RIFF/WAVE validation passes, the walk
finds PCM-16 and the data chunk at offset 44, and the advisory declared
size is replaced by the actual payload size. -/
lemma parseWAVContent_mkWav (r d sr br ba : ℕ) (p : List ℕ)
    (hd : d < 4294967296) (hpd : p.length < d) (h2 : 2 ≤ p.length) :
    parseWAVContent (mkPCM16MonoWav r d sr br ba p) =
      .ok ((List.range (p.length / 2)).map (fun i =>
          ((int16le (byteAt (mkPCM16MonoWav r d sr br ba p) (44 + 2 * i))
              (byteAt (mkPCM16MonoWav r d sr br ba p) (44 + 2 * i + 1)) : ℚ) /
            32767)),
        u32le (sr % 256) (sr / 256 % 256) (sr / 65536 % 256)
          (sr / 16777216 % 256)) := by
  have hlen : (mkPCM16MonoWav r d sr br ba p).length = 44 + p.length :=
    mkWav_length r d sr br ba p
  have hriff : (mkPCM16MonoWav r d sr br ba p).take 4 =
      [0x52, 0x49, 0x46, 0x46] := rfl
  have hwave : ((mkPCM16MonoWav r d sr br ba p).drop 8).take 4 =
      [0x57, 0x41, 0x56, 0x45] := rfl
  unfold parseWAVContent
  rw [if_neg (by omega)]
  rw [if_neg (by rw [hriff]; exact fun h => h rfl)]
  rw [if_neg (by rw [hwave]; exact fun h => h rfl)]
  rw [chunkWalk_mkWav r d sr br ba p hd (by omega)]
  exact extractAudioData_mkWav r d sr br ba p hpd h2

/-- C2: the `data` chunk's declared size is advisory. The effective data
size is `min(declared, file_size − data_offset)`; and every RIFF/WAVE
file in the standard 44-byte PCM-16 mono layout whose declared data size
`d` (e.g. `0xFFFFFFFF`) exceeds the payload actually present parses
successfully into exactly
`floor((file_size − data_offset) / 2)` samples, where the data offset
is 44. -/
theorem C2_wav_advisory_data_size :
    (∀ contentLength dataOffset dataSize : ℕ, dataOffset ≤ contentLength →
        effectiveDataSize contentLength dataOffset dataSize =
          min dataSize (contentLength - dataOffset)) ∧
      ∀ (r d sr br ba : ℕ) (p : List ℕ), d < 4294967296 → p.length < d →
        2 ≤ p.length →
        ∃ samples rate,
          parseWAVContent (mkPCM16MonoWav r d sr br ba p) =
              .ok (samples, rate) ∧
            samples.length =
              ((mkPCM16MonoWav r d sr br ba p).length - 44) / 2 := by
  constructor
  · intro contentLength dataOffset dataSize h
    unfold effectiveDataSize
    split_ifs with hlt <;> omega
  · intro r d sr br ba p hd hpd h2
    refine ⟨_, _, parseWAVContent_mkWav r d sr br ba p hd hpd h2, ?_⟩
    rw [List.length_map, List.length_range, mkWav_length]
    omega

/-- C2 (witness): the scenario file — 2,330,444 bytes, RIFF size and
data size fields both `0xFFFFFFFF`, PCM mono 24000 Hz 16-bit, data at
offset 44 — yields exactly 1,165,200 samples. -/
theorem C2_witness :
    (effectiveDataSize 2330444 44 4294967295 = min 4294967295 (2330444 - 44) ∧
      min 4294967295 (2330444 - 44) = 2330400) ∧
      ∃ samples rate,
        parseWAVContent (mkPCM16MonoWav 4294967295 4294967295 24000 48000 2
            (List.replicate 2330400 0)) = .ok (samples, rate) ∧
          samples.length = 1165200 := by
  constructor
  · exact ⟨C2_wav_advisory_data_size.1 2330444 44 4294967295 (by omega),
      by norm_num⟩
  · obtain ⟨samples, rate, hparse, hlen⟩ :=
      C2_wav_advisory_data_size.2 4294967295 4294967295 24000 48000 2
        (List.replicate 2330400 0) (by norm_num)
        (by rw [List.length_replicate]; norm_num)
        (by rw [List.length_replicate]; norm_num)
    refine ⟨samples, rate, hparse, ?_⟩
    rw [hlen, mkWav_length, List.length_replicate]
